import Mathlib

/-!
Verification development for the Kraken2MPA plugin
(`src/Kraken2MPAPlugin.py`): a converter from Kraken-style taxonomic
reports to MetaPhlAn (mpa) style lineage reports.

The embedding works over `List Char` as the string type (Python `str`),
`ℚ` for Python numbers where exact arithmetic matters (the depth value
`spaces/2` and the percent field), `Int` for Python ints, and
`Except PyError` for Python's exception control flow (`ValueError` from
`int()`/`float()`, `IndexError` from `list.pop()` on an empty list).

Python's `int()` / `float()` accept some rarely used syntax that is not
modelled (digit-group underscores, exponents, `inf`/`nan`); the model
keeps optional surrounding whitespace, an optional sign, plain digit
runs, and for floats one optional decimal point.
-/

namespace Kraken2MPA

/-- Python exceptions that the plugin can raise (uncaught). -/
inductive PyError where
  | valueError : PyError
  | indexError : PyError
  deriving DecidableEq

end Kraken2MPA

deriving instance DecidableEq for Except

namespace Kraken2MPA

/-- Python whitespace stripped by `str.strip()` (ASCII subset). -/
def isPyWs (c : Char) : Bool :=
  c = ' ' || c = '\t' || c = '\n' || c = '\r' || c = '\x0b' || c = '\x0c'

/-- `str.strip()`: drop whitespace from both ends. -/
def pyStrip (l : List Char) : List Char :=
  ((l.dropWhile isPyWs).reverse.dropWhile isPyWs).reverse

/-- `str.split(sep)` for a single-character separator: splits on every
occurrence, keeping empty pieces (Python semantics). -/
def splitOnChar (sep : Char) : List Char → List (List Char)
  | [] => [[]]
  | c :: rest =>
    if c = sep then [] :: splitOnChar sep rest
    else
      match splitOnChar sep rest with
      | [] => [[c]]
      | f :: fs => (c :: f) :: fs

/-- `str.split('\t')` as used on report lines. -/
def splitTab (l : List Char) : List (List Char) := splitOnChar '\t' l

/-- ASCII decimal digit test. -/
def isPyDigit (c : Char) : Bool := '0' ≤ c && c ≤ '9'

/-- Numeric value of a digit run. -/
def digitsVal (l : List Char) : Nat :=
  l.foldl (fun a c => a * 10 + (c.toNat - '0'.toNat)) 0

/-- Shared core of `int()`/`float()` parsing: a nonempty all-digit run. -/
def digitRun? (l : List Char) : Option Nat :=
  if !l.isEmpty && l.all isPyDigit then some (digitsVal l) else none

/-- Python `int(s)`: surrounding whitespace, optional sign, digits;
`none` models a raised `ValueError`. -/
def pyInt? (s : List Char) : Option Int :=
  match pyStrip s with
  | '-' :: ds => (digitRun? ds).map (fun n => -(n : Int))
  | '+' :: ds => (digitRun? ds).map (fun n => (n : Int))
  | ds => (digitRun? ds).map (fun n => (n : Int))

/-- Python `float(s)` restricted to plain decimal notation, with the value
kept exactly as a rational; `none` models a raised `ValueError`. -/
def pyFloat? (s : List Char) : Option ℚ :=
  let body : List Char → Option ℚ := fun t =>
    match splitOnChar '.' t with
    | [ds] => (digitRun? ds).map (fun n => (n : ℚ))
    | [as, bs] =>
      if (as.all isPyDigit && bs.all isPyDigit) && (!as.isEmpty || !bs.isEmpty) then
        some ((digitsVal as : ℚ) + (digitsVal bs : ℚ) / (10 ^ bs.length))
      else none
    | _ => none
  match pyStrip s with
  | '-' :: t => (body t).map (fun q => -q)
  | '+' :: t => body t
  | t => body t

/-- `split_str[i]` under a bounds guard already established by the caller
(the parser only indexes after checking `len(split_str) >= 4`). -/
def fld (fs : List (List Char)) (i : Nat) : List Char := (fs.get? i).getD []

/-- Python negative index `split_str[-k]`. -/
def negFld (fs : List (List Char)) (k : Nat) : List Char := fld fs (fs.length - k)

/-- The `map_kuniq` rank-word table lookup with the `not in` default:
`{'species':'S','genus':'G','family':'F','order':'O','class':'C',
'phylum':'P','superkingdom':'D','kingdom':'K'}`, anything else `'-'`. -/
def normalizeKuniq (w : List Char) : List Char :=
  if w = "species".data then ['S']
  else if w = "genus".data then ['G']
  else if w = "family".data then ['F']
  else if w = "order".data then ['O']
  else if w = "class".data then ['C']
  else if w = "phylum".data then ['P']
  else if w = "superkingdom".data then ['D']
  else if w = "kingdom".data then ['K']
  else ['-']

/-- The keys of `map_kuniq`. -/
def kuniqWords : List (List Char) :=
  ["species".data, "genus".data, "family".data, "order".data,
   "class".data, "phylum".data, "superkingdom".data, "kingdom".data]

/-- The record returned by `process_kraken_report`:
`[name, level_num, level_type, all_reads, percents]`. -/
structure KRecord where
  name : List Char
  level_num : ℚ
  level_type : List Char
  all_reads : Int
  percents : ℚ
  deriving DecidableEq

/-- The name/space loop of `process_kraken_report`: iterate over the
characters of the original last field, and while they are spaces, drop one
character from the front of the evolving name and count it. -/
def nameLoop : List Char → List Char → Nat → List Char × Nat
  | [], nm, sp => (nm, sp)
  | c :: rest, nm, sp =>
    if c = ' ' then nameLoop rest (nm.drop 1) (sp + 1) else (nm, sp)

/-- Name and depth extraction from the last field: run the space loop,
replace remaining spaces by underscores, depth is `spaces/2` (exact). -/
def parseName (nm : List Char) : List Char × ℚ :=
  let p := nameLoop nm nm 0
  (p.1.map (fun c => if c = ' ' then '_' else c), (p.2 : ℚ) / 2)

/-- Record construction shared by both rank/taxid dialect branches. -/
def mkRec (fs : List (List Char)) (lt : List Char) (n : Int) (q : ℚ) : KRecord :=
  let p := parseName (negFld fs 1)
  ⟨p.1, p.2, lt, n, q⟩

/-- `process_kraken_report` on an already split line. `.ok none` models the
`return []` header/malformed-line skips; `.error` models an uncaught
Python exception aborting the run. -/
def parseFields (split_str : List (List Char)) : Except PyError (Option KRecord) :=
  if split_str.length < 4 then .ok none
  else
    match pyInt? (fld split_str 1) with
    | none => .ok none
    | some all_reads =>
      match pyFloat? (fld split_str 0) with
      | none => .error .valueError
      | some percents =>
        match pyInt? (negFld split_str 3) with
        | some _taxid =>
          .ok (some (mkRec split_str (normalizeKuniq (negFld split_str 2)) all_reads percents))
        | none =>
          match pyInt? (negFld split_str 2) with
          | none => .error .valueError
          | some _taxid =>
            .ok (some (mkRec split_str (negFld split_str 3) all_reads percents))

/-- `process_kraken_report(curr_str)`: strip the line, split on tabs,
then extract the record. -/
def process_kraken_report (curr_str : List Char) : Except PyError (Option KRecord) :=
  parseFields (splitTab (pyStrip curr_str))

/-! ### The path tracker (`Kraken2MPAPlugin.output`) -/

/-- The configuration fields set by `Kraken2MPAPlugin.input`; all are kept
as Python strings, compared against `"True"` exactly as the source does. -/
structure Config where
  r_file : List Char
  add_header : List Char
  use_reads : List Char
  x_include : List Char
  deriving DecidableEq

/-- The literal `"True"`. -/
def trueStr : List Char := ['T', 'r', 'u', 'e']

/-- The literal `"U"`. -/
def uStr : List Char := ['U']

/-- The literal `"x"`. -/
def xStr : List Char := ['x']

/-- `main_lvls = ['R','K','D','P','C','O','F','G','S']`. -/
def main_lvls : List (List Char) :=
  [['R'], ['K'], ['D'], ['P'], ['C'], ['O'], ['F'], ['G'], ['S']]

/-- The rank remapping of lines 153-158: anything outside `main_lvls`
becomes `"x"`, and both `"K"` and `"D"` become `"k"`. -/
def remapRank (lt : List Char) : List Char :=
  if lt ∉ main_lvls then xStr
  else if lt = ['K'] then ['k']
  else if lt = ['D'] then ['k']
  else lt

/-- `str.lower()` (ASCII). -/
def pyLower (l : List Char) : List Char := l.map Char.toLower

/-- `level_str = level_type.lower() + "__" + name` (with `level_type`
already remapped). -/
def levelStr (r : KRecord) : List Char :=
  pyLower (remapRank r.level_type) ++ '_' :: '_' :: r.name

/-- Mutable state of the output loop: the ancestor stack `curr_path`
(root first) and `prev_lvl_num` (initially `-1`). -/
structure TState where
  curr_path : List (List Char)
  prev_lvl_num : ℚ
  deriving DecidableEq

/-- `curr_path = []`, `prev_lvl_num = -1`. -/
def initState : TState := ⟨[], -1⟩

/-- The backtracking `while` loop
`while level_num != (prev_lvl_num + 1): prev_lvl_num -= 1; curr_path.pop()`
with the fuel argument standing for the loop's bounded trip count: each
iteration pops one entry, so the loop runs at most `curr_path.length`
times before `pop` raises `IndexError` on the empty list. `backtrack`
below always supplies `fuel = path.length`, making the fuel-exhaustion
arm unreachable. -/
def backtrackAux (level : ℚ) (fuel : Nat) (path : List (List Char)) (prev : ℚ) :
    Except PyError (List (List Char) × ℚ) :=
  if level = prev + 1 then .ok (path, prev)
  else
    match path with
    | [] => .error .indexError
    | _ :: _ =>
      match fuel with
      | 0 => .error .indexError
      | f + 1 => backtrackAux level f path.dropLast (prev - 1)

/-- The backtracking loop on the actual stack. -/
def backtrack (path : List (List Char)) (prev level : ℚ) :
    Except PyError (List (List Char) × ℚ) :=
  backtrackAux level path.length path prev

/-- The per-ancestor write of lines 173-176: write `string + "|"` when
`(string[0] == "x" and x_include == "True") or string[0] != "x"` and
`string[0] != "r"`, else write nothing. -/
def entryOut (x_include : List Char) (e : List Char) : List Char :=
  if (e.head? == some 'x' && x_include == trueStr) || !(e.head? == some 'x') then
    if !(e.head? == some 'r') then e ++ ['|'] else []
  else []

/-- The ancestor-entry filter as the specification phrases it: keep an
entry unless it is `x`-prefixed with intermediate ranks excluded, or
`r`-prefixed. Compared against `entryOut` (the code's nested tests). -/
def keepSpec (x_include : List Char) (e : List Char) : Bool :=
  (e.head? != some 'x' || x_include == trueStr) && (e.head? != some 'r')

/-- Python `str()` on the percent float, modelled for the terminating
decimals `pyFloat?` produces; only its determinism matters to the claims. -/
def floatStr (q : ℚ) : List Char :=
  if q.den = 1 then (toString q.num).data ++ '.' :: ['0'] else (toString q).data

/-- The metric column: `str(all_reads)` when `read_count` is `"True"`,
else `str(percents)`. -/
def metricOf (cfg : Config) (r : KRecord) : List Char :=
  if cfg.use_reads == trueStr then (toString r.all_reads).data else floatStr r.percents

/-- One iteration of the output loop body for a parsed record (lines
150-184): skip `U` records, remap the rank, build `level_str`; in the
first-level case push and remember the depth; otherwise run the
backtracking loop, optionally emit the lineage line (returned as the
concatenation of this record's `o_file.write` calls), then push and
update `prev_lvl_num`. -/
def processRecord (cfg : Config) (s : TState) (r : KRecord) :
    Except PyError (TState × List (List Char)) :=
  if r.level_type = uStr then .ok (s, [])
  else
    let lt := remapRank r.level_type
    let level_str := levelStr r
    if s.prev_lvl_num = -1 then
      .ok (⟨s.curr_path ++ [level_str], r.level_num⟩, [])
    else
      match backtrack s.curr_path s.prev_lvl_num r.level_num with
      | .error e => .error e
      | .ok (path, _) =>
        let chunk :=
          if (lt == xStr && cfg.x_include == trueStr) || !(lt == xStr) then
            [(path.map (entryOut cfg.x_include)).flatten
              ++ level_str ++ '\t' :: metricOf cfg r ++ ['\n']]
          else []
        .ok (⟨path ++ [level_str], r.level_num⟩, chunk)

/-- The output loop over a list of already parsed records. -/
def processRecords (cfg : Config) (s : TState) :
    List KRecord → Except PyError (TState × List (List Char))
  | [] => .ok (s, [])
  | r :: rest =>
    match processRecord cfg s r with
    | .error e => .error e
    | .ok (s', out) =>
      match processRecords cfg s' rest with
      | .error e => .error e
      | .ok (s'', outs) => .ok (s'', out ++ outs)

/-- The output loop over raw report lines, keeping the bytes written so
far together with the aborting exception, if any (an abort keeps the
partial output already written). -/
def runLines (cfg : Config) : TState → List (List Char) → List Char × Option PyError
  | _, [] => ([], none)
  | s, l :: rest =>
    match process_kraken_report l with
    | .error e => ([], some e)
    | .ok none => runLines cfg s rest
    | .ok (some r) =>
      match processRecord cfg s r with
      | .error e => ([], some e)
      | .ok (s', outs) =>
        let t := runLines cfg s' rest
        (outs.flatten ++ t.1, t.2)

/-- `os.path.basename`: everything after the last `'/'`. -/
def pyBasename (p : List Char) : List Char :=
  (p.reverse.takeWhile (fun c => c ≠ '/')).reverse

/-- The whole `output(outfile)` pass: the output file content produced for
the given report lines, plus the aborting exception if one was raised.
`prevOut` is whatever the output file held before the run; opening with
mode `'w'` truncates it, so it is discarded. -/
def outputPass (cfg : Config) (reportLines : List (List Char)) (prevOut : List Char) :
    List Char × Option PyError :=
  let _ := prevOut
  let hdr :=
    if cfg.add_header == trueStr then
      ('#' :: "Classification".data) ++ '\t' :: pyBasename cfg.r_file ++ ['\n']
    else []
  let body := runLines cfg initState reportLines
  (hdr ++ body.1, body.2)

/-! ### Concrete inputs used to exercise the theorems -/

/-- Default-flavoured configuration: `read_count=True`, no header, no
intermediate ranks. -/
def exCfg : Config := ⟨"sample.kreport".data, "False".data, "True".data, "False".data⟩

/-- The specification's worked example line (4 leading name spaces). -/
def exLine : List Char := "50.00\t100\t50\tS\t1234\t    Escherichia_coli".data

/-- The tracker state of the worked example: path established at depths 0
and 1, `prev_lvl_num = 1`. -/
def exState : TState := ⟨["d__Bacteria".data, "p__Proteobacteria".data], 1⟩

/-- The record parsed from `exLine`. -/
def exRec : KRecord := ⟨"Escherichia_coli".data, 2, ['S'], 100, 50⟩

/-- A KrakenUniq-dialect line: integer taxon ID third-from-last, rank word
second-from-last. -/
def lineKU : List Char := "1.0\t5\t3\t123\tspecies\tname".data

/-- The record parsed from `lineKU`. -/
def recKU : KRecord := ⟨"name".data, 0, ['S'], 5, 1⟩

/-- A fallback-dialect line whose rank field is the table word
`species` (third-from-last, with the integer taxon ID after it). -/
def lineV : List Char := "1.0\t5\t3\tspecies\t7\tname".data

/-- The record parsed from `lineV`: the rank word is kept verbatim. -/
def recV : KRecord := ⟨"name".data, 0, "species".data, 5, 1⟩

/-- A line whose name field has five leading spaces (fractional depth). -/
def lineHalf : List Char := "1.0\t5\t3\tS\t7\t     a b".data

/-- The record parsed from `lineHalf`. -/
def recHalf : KRecord := ⟨"a_b".data, 5 / 2, ['S'], 5, 1⟩

/-- A root-level record (depth 0, rank `R`). -/
def recRoot : KRecord := ⟨"root".data, 0, ['R'], 100, 100⟩

/-- A depth-1 domain record. -/
def recBact : KRecord := ⟨"Bacteria".data, 1, ['D'], 90, 90⟩

/-- A species record at depth 1 (used as a malformed first record). -/
def recD1 : KRecord := ⟨"a".data, 1, ['S'], 5, 1⟩

/-- An unclassified record at depth 5. -/
def recU5 : KRecord := ⟨"u".data, 5, ['U'], 3, 1⟩

/-- A one-entry tracker state at depth 0. -/
def stRoot : TState := ⟨["r__root".data], 0⟩

/-- A species record at depth 5 (an upward jump from `stRoot`). -/
def recJump : KRecord := ⟨"b".data, 5, ['S'], 5, 1⟩

/-- A genus record at depth 1. -/
def recG1 : KRecord := ⟨"b".data, 1, ['G'], 5, 7⟩

/-- A one-entry state holding a species entry at depth 0. -/
def stSpec : TState := ⟨["s__a".data], 0⟩

/-- An unranked record at depth 0. -/
def recX0 : KRecord := ⟨"b".data, 0, ['-'], 5, 1⟩

/-- A line whose first field is not a float but whose second is an int. -/
def lineBadFloat : List Char := "abc\t5\tx\ty".data

/-- A two-entry tracker state at depth 1. -/
def stTwo : TState := ⟨["r__root".data, "k__Bact".data], 1⟩

/-- A phylum record at depth 0. -/
def recP0 : KRecord := ⟨"c".data, 0, ['P'], 4, 2⟩

/-! ### Lemmas about the backtracking loop -/

/-- If no number of pops can make `level = prev + 1`, the loop pops the
whole stack and then fails on `curr_path.pop()` with `IndexError`. -/
theorem backtrackAux_error (level : ℚ) (fuel : Nat) :
    ∀ (path : List (List Char)) (prev : ℚ),
      path.length ≤ fuel →
      (∀ k : Nat, k ≤ path.length → level ≠ prev + 1 - k) →
      backtrackAux level fuel path prev = .error .indexError := by
  induction fuel with
  | zero =>
    intro path prev hlen hk
    have hpath : path = [] := List.eq_nil_of_length_eq_zero (Nat.le_zero.mp hlen)
    subst hpath
    have h0 : level ≠ prev + 1 := by simpa using hk 0 (Nat.le_refl 0)
    rw [backtrackAux.eq_def, if_neg h0]
  | succ f ih =>
    intro path prev hlen hk
    have h0 : level ≠ prev + 1 := by simpa using hk 0 (Nat.zero_le _)
    cases path with
    | nil => rw [backtrackAux.eq_def, if_neg h0]
    | cons a l =>
      rw [backtrackAux.eq_def, if_neg h0]
      refine ih (a :: l).dropLast (prev - 1) ?_ ?_
      · simp only [List.length_dropLast, List.length_cons] at hlen ⊢
        omega
      · intro k hkle hcon
        refine hk (k + 1) ?_ ?_
        · simp only [List.length_dropLast, List.length_cons] at hkle ⊢
          omega
        · rw [hcon]
          push_cast
          ring

/-- If exactly `k` pops make `level = prev + 1` (with `k` within the stack
size), the loop stops there, leaving the first `length - k` entries. -/
theorem backtrackAux_ok (level : ℚ) :
    ∀ (k fuel : Nat) (path : List (List Char)) (prev : ℚ),
      path.length ≤ fuel → k ≤ path.length → level = prev + 1 - k →
      backtrackAux level fuel path prev =
        .ok (path.take (path.length - k), prev - k) := by
  intro k
  induction k with
  | zero =>
    intro fuel path prev _ _ hlv
    have hlv' : level = prev + 1 := by simpa using hlv
    rw [backtrackAux.eq_def, if_pos hlv']
    simp
  | succ k ih =>
    intro fuel path prev hlen hkle hlv
    have hne : level ≠ prev + 1 := by
      rw [hlv]
      intro hcon
      have hk0 : (0 : ℚ) ≤ (k : ℚ) := Nat.cast_nonneg k
      have : ((k : ℚ) + 1) = 0 := by push_cast at hcon ⊢; linarith
      linarith
    cases path with
    | nil => simp at hkle
    | cons a l =>
      cases fuel with
      | zero => simp at hlen
      | succ f =>
        rw [backtrackAux.eq_def, if_neg hne]
        have h1 : (a :: l).dropLast.length ≤ f := by
          simp only [List.length_dropLast, List.length_cons] at hlen ⊢
          omega
        have h2 : k ≤ (a :: l).dropLast.length := by
          simp only [List.length_dropLast, List.length_cons] at hkle ⊢
          omega
        have h3 : level = (prev - 1) + 1 - k := by rw [hlv]; push_cast; ring
        refine (ih f (a :: l).dropLast (prev - 1) h1 h2 h3).trans ?_
        have hlist : (a :: l).dropLast.take ((a :: l).dropLast.length - k) =
            (a :: l).take ((a :: l).length - (k + 1)) := by
          rw [List.dropLast_eq_take, List.take_take]
          congr 1
          simp only [List.length_take, List.length_cons]
          omega
        have hrat : prev - 1 - (k : ℚ) = prev - ((k : ℚ) + 1) := by ring
        rw [hlist]
        rw [show ((k + 1 : ℕ) : ℚ) = (k : ℚ) + 1 by push_cast; ring, ← hrat]

/-- Whatever the loop returns on success satisfies the exit condition
`level = prev + 1` and preserves `length - prev` (each iteration pops one
entry and decrements `prev` by one). -/
theorem backtrackAux_rel (level : ℚ) (fuel : Nat) :
    ∀ (path : List (List Char)) (prev : ℚ) (path' : List (List Char)) (prev' : ℚ),
      path.length ≤ fuel →
      backtrackAux level fuel path prev = .ok (path', prev') →
      level = prev' + 1 ∧
        (path'.length : ℚ) - prev' = (path.length : ℚ) - prev := by
  induction fuel with
  | zero =>
    intro path prev path' prev' hlen h
    have hpath : path = [] := List.eq_nil_of_length_eq_zero (Nat.le_zero.mp hlen)
    subst hpath
    rw [backtrackAux.eq_def] at h
    by_cases hlv : level = prev + 1
    · rw [if_pos hlv] at h
      simp only [Except.ok.injEq, Prod.mk.injEq] at h
      obtain ⟨h1, h2⟩ := h
      subst h1; subst h2
      exact ⟨hlv, rfl⟩
    · rw [if_neg hlv] at h
      simp at h
  | succ f ih =>
    intro path prev path' prev' hlen h
    rw [backtrackAux.eq_def] at h
    by_cases hlv : level = prev + 1
    · rw [if_pos hlv] at h
      simp only [Except.ok.injEq, Prod.mk.injEq] at h
      obtain ⟨h1, h2⟩ := h
      subst h1; subst h2
      exact ⟨hlv, rfl⟩
    · rw [if_neg hlv] at h
      cases path with
      | nil => simp at h
      | cons a l =>
        have h' : backtrackAux level f (a :: l).dropLast (prev - 1) = .ok (path', prev') := h
        have hlen' : (a :: l).dropLast.length ≤ f := by
          simp only [List.length_dropLast, List.length_cons] at hlen ⊢
          omega
        obtain ⟨h1, h2⟩ := ih (a :: l).dropLast (prev - 1) path' prev' hlen' h'
        refine ⟨h1, ?_⟩
        rw [h2]
        simp only [List.length_dropLast, List.length_cons]
        push_cast
        ring

/-! ### Lemmas about the line parser -/

/-- The incremental space-stripping loop equals dropping (and counting)
the leading spaces of the field in one go. -/
theorem nameLoop_eq :
    ∀ (l : List Char) (sp : Nat),
      nameLoop l l sp =
        (l.dropWhile (fun c => c = ' '),
         sp + (l.takeWhile (fun c => c = ' ')).length) := by
  intro l
  induction l with
  | nil => intro sp; simp [nameLoop, List.dropWhile, List.takeWhile]
  | cons c rest ih =>
    intro sp
    by_cases hc : c = ' '
    · have hstep : nameLoop (c :: rest) (c :: rest) sp = nameLoop rest rest (sp + 1) := by
        simp [nameLoop, hc]
      rw [hstep, ih (sp + 1)]
      subst hc
      simp [List.dropWhile_cons, List.takeWhile_cons]
      omega
    · simp [nameLoop, hc, List.dropWhile_cons, List.takeWhile_cons]

/-- Inversion: whichever dialect branch produced a record, its name and
depth come from `parseName` on the last field. -/
theorem parseFields_shape (fs : List (List Char)) (r : KRecord)
    (h : parseFields fs = .ok (some r)) :
    r.name = (parseName (negFld fs 1)).1 ∧ r.level_num = (parseName (negFld fs 1)).2 := by
  unfold parseFields at h
  by_cases h4 : fs.length < 4
  · rw [if_pos h4] at h; simp at h
  · rw [if_neg h4] at h
    cases h1 : pyInt? (fld fs 1) with
    | none => rw [h1] at h; simp at h
    | some n =>
      rw [h1] at h
      cases h2 : pyFloat? (fld fs 0) with
      | none => rw [h2] at h; simp at h
      | some q =>
        rw [h2] at h
        cases h3 : pyInt? (negFld fs 3) with
        | some t =>
          rw [h3] at h
          simp only [Except.ok.injEq, Option.some.injEq] at h
          subst h
          exact ⟨rfl, rfl⟩
        | none =>
          rw [h3] at h
          cases h5 : pyInt? (negFld fs 2) with
          | none => rw [h5] at h; simp at h
          | some t =>
            rw [h5] at h
            simp only [Except.ok.injEq, Option.some.injEq] at h
            subst h
            exact ⟨rfl, rfl⟩

/-! ### Lemmas about the emission step -/

/-- The code's nested per-entry tests match the specification's filter:
keep unless (`x`-prefixed and intermediates excluded) or `r`-prefixed. -/
theorem entryOut_eq (xi e : List Char) :
    entryOut xi e = if keepSpec xi e then e ++ ['|'] else [] := by
  unfold entryOut keepSpec
  by_cases hx : e.head? = some 'x' <;>
    by_cases hr : e.head? = some 'r' <;>
      by_cases hi : xi = trueStr <;>
        simp_all

/-- The sequence of per-ancestor writes equals filtering the stack and
appending `"|"` to each survivor. -/
theorem chain_eq (xi : List Char) :
    ∀ path : List (List Char),
      (path.map (entryOut xi)).flatten =
        ((path.filter (keepSpec xi)).map (fun e => e ++ ['|'])).flatten := by
  intro path
  induction path with
  | nil => rfl
  | cons a l ih =>
    simp only [List.map_cons, List.flatten_cons, List.filter_cons]
    cases hk : keepSpec xi a
    · simp only [entryOut_eq, hk, if_false, Bool.false_eq_true, List.nil_append]
      exact ih
    · simp only [entryOut_eq, hk, if_true, List.map_cons, List.flatten_cons,
        List.append_assoc]
      rw [ih]

/-- The code's emission condition
`(level_type == "x" and x_include == "True") or level_type != "x"`
equals the specification's `display rank ≠ x or intermediates enabled`. -/
theorem emitCond_eq (lt xi : List Char) :
    ((lt == xStr && xi == trueStr) || !(lt == xStr)) = (lt != xStr || xi == trueStr) := by
  simp only [bne]
  cases hb1 : (lt == xStr) <;> cases hb2 : (xi == trueStr) <;> simp

/-- One trip of the backtracking loop: when the stop test fails and the
stack is nonempty, pop the last entry and decrement `prev` by one. -/
theorem backtrackAux_step (level : ℚ) (f : Nat) (path : List (List Char)) (prev : ℚ)
    (hne : level ≠ prev + 1) (hp : path ≠ []) :
    backtrackAux level (f + 1) path prev =
      backtrackAux level f path.dropLast (prev - 1) := by
  cases path with
  | nil => exact absurd rfl hp
  | cons a l => rw [backtrackAux.eq_def, if_neg hne]

/-! ### Lemmas about the record-processing loop -/

/-- How one `processRecord` step changes the tracker state: `U` records
leave it unchanged, the first record pushes one entry, and an `ACTIVE`
step sets `prev_lvl_num` to the record's depth while changing the stack
length by `depth - prev_lvl_num` (pops plus one push). -/
theorem processRecord_state (cfg : Config) (s : TState) (r : KRecord) (s' : TState)
    (out : List (List Char)) (h : processRecord cfg s r = .ok (s', out)) :
    (r.level_type = uStr ∧ s' = s) ∨
    (r.level_type ≠ uStr ∧ s.prev_lvl_num = -1 ∧
      s' = ⟨s.curr_path ++ [levelStr r], r.level_num⟩) ∨
    (r.level_type ≠ uStr ∧ s.prev_lvl_num ≠ -1 ∧ s'.prev_lvl_num = r.level_num ∧
      (s'.curr_path.length : ℚ) =
        (s.curr_path.length : ℚ) - s.prev_lvl_num + r.level_num) := by
  unfold processRecord at h
  by_cases hU : r.level_type = uStr
  · rw [if_pos hU] at h
    simp only [Except.ok.injEq, Prod.mk.injEq] at h
    exact Or.inl ⟨hU, h.1.symm⟩
  · rw [if_neg hU] at h
    by_cases hP : s.prev_lvl_num = -1
    · rw [if_pos hP] at h
      simp only [Except.ok.injEq, Prod.mk.injEq] at h
      exact Or.inr (Or.inl ⟨hU, hP, h.1.symm⟩)
    · rw [if_neg hP] at h
      cases hb : backtrack s.curr_path s.prev_lvl_num r.level_num with
      | error e => rw [hb] at h; simp at h
      | ok pr =>
        obtain ⟨path, p⟩ := pr
        rw [hb] at h
        simp only [Except.ok.injEq, Prod.mk.injEq] at h
        obtain ⟨hs, _⟩ := h
        have hb' : backtrackAux r.level_num s.curr_path.length s.curr_path
            s.prev_lvl_num = .ok (path, p) := hb
        obtain ⟨h1, h2⟩ := backtrackAux_rel r.level_num s.curr_path.length
          s.curr_path s.prev_lvl_num path p (Nat.le_refl _) hb'
        refine Or.inr (Or.inr ⟨hU, hP, ?_, ?_⟩)
        · rw [← hs]
        · rw [← hs]
          simp only [List.length_append, List.length_cons, List.length_nil]
          push_cast
          linarith [h1, h2]

/-- The cons unfolding of the record loop. -/
theorem processRecords_cons (cfg : Config) (s : TState) (a : KRecord) (rest : List KRecord) :
    processRecords cfg s (a :: rest) =
      match processRecord cfg s a with
      | .error e => .error e
      | .ok (s1, o1) =>
        match processRecords cfg s1 rest with
        | .error e => .error e
        | .ok (s2, o2) => .ok (s2, o1 ++ o2) := rfl

/-- Splitting a successful record-loop run at a list append. -/
theorem processRecords_append_ok (cfg : Config) (as : List KRecord) :
    ∀ (bs : List KRecord) (s sf : TState) (outf : List (List Char)),
      processRecords cfg s (as ++ bs) = .ok (sf, outf) →
      ∃ s1 o1 o2, processRecords cfg s as = .ok (s1, o1) ∧
        processRecords cfg s1 bs = .ok (sf, o2) ∧ outf = o1 ++ o2 := by
  induction as with
  | nil =>
    intro bs s sf outf h
    exact ⟨s, [], outf, rfl, h, rfl⟩
  | cons a t ih =>
    intro bs s sf outf h
    rw [List.cons_append, processRecords_cons] at h
    cases hr : processRecord cfg s a with
    | error e => rw [hr] at h; simp at h
    | ok pr =>
      obtain ⟨s1, o1⟩ := pr
      rw [hr] at h
      simp only [] at h
      cases h2 : processRecords cfg s1 (t ++ bs) with
      | error e => rw [h2] at h; simp at h
      | ok pr2 =>
        obtain ⟨s2, o2⟩ := pr2
        rw [h2] at h
        simp only [Except.ok.injEq, Prod.mk.injEq] at h
        obtain ⟨hsf, hof⟩ := h
        obtain ⟨s1', o1', o2', ha, hb, hc⟩ := ih bs s1 s2 o2 h2
        subst hsf
        refine ⟨s1', o1 ++ o1', o2', ?_, hb, ?_⟩
        · rw [processRecords_cons, hr]
          simp only []
          rw [ha]
        · rw [← hof, hc, List.append_assoc]

/-- The ACTIVE-state step after a successful backtrack: emission iff the
display rank is not `x` or intermediates are enabled, the line built from
the filtered post-backtrack stack, then the push and depth update. -/
theorem processRecord_active (cfg : Config) (s : TState) (r : KRecord)
    (path : List (List Char)) (p : ℚ)
    (hU : r.level_type ≠ uStr)
    (hA : s.prev_lvl_num ≠ -1)
    (hB : backtrack s.curr_path s.prev_lvl_num r.level_num = .ok (path, p)) :
    processRecord cfg s r =
      .ok (⟨path ++ [levelStr r], r.level_num⟩,
        if remapRank r.level_type != xStr || cfg.x_include == trueStr then
          [((path.filter (keepSpec cfg.x_include)).map (fun e => e ++ ['|'])).flatten
            ++ levelStr r ++ '\t' :: metricOf cfg r ++ ['\n']]
        else []) := by
  unfold processRecord
  rw [if_neg hU, if_neg hA, hB]
  simp only [emitCond_eq, chain_eq]

/-! ### The claims -/

/-- **C1**: for a valid non-`U` record processed in the ACTIVE state, once
backtracking has succeeded, a line is emitted iff the display rank is not
`x` or intermediate ranks are enabled; the line is the post-backtrack
stack in root-to-current order with `x`-prefixed entries dropped (when
intermediates are excluded) and `r`-prefixed entries dropped, each
followed by `|`, then `rank__name`, a tab, and the metric; and in either
case `level_str` is pushed and `prev_lvl_num` is set to the depth. -/
theorem claim_c1 (cfg : Config) (s : TState) (r : KRecord)
    (path : List (List Char)) (p : ℚ)
    (hU : r.level_type ≠ uStr)
    (hA : s.prev_lvl_num ≠ -1)
    (hB : backtrack s.curr_path s.prev_lvl_num r.level_num = .ok (path, p)) :
    processRecord cfg s r =
      .ok (⟨path ++ [levelStr r], r.level_num⟩,
        if remapRank r.level_type != xStr || cfg.x_include == trueStr then
          [((path.filter (keepSpec cfg.x_include)).map (fun e => e ++ ['|'])).flatten
            ++ levelStr r ++ '\t' :: metricOf cfg r ++ ['\n']]
        else []) :=
  processRecord_active cfg s r path p hU hA hB

unseal Rat.add Rat.sub Rat.mul Rat.inv in
/-- Witness for C1: the specification's worked example — `exRec` (parsed
from `exLine`) at depth 2 over the established path, emitting
`d__Bacteria|p__Proteobacteria|s__Escherichia_coli<TAB>100`. -/
theorem claim_c1_witness :
    processRecord exCfg exState exRec =
      .ok (⟨exState.curr_path ++ [levelStr exRec], exRec.level_num⟩,
        if remapRank exRec.level_type != xStr || exCfg.x_include == trueStr then
          [((exState.curr_path.filter (keepSpec exCfg.x_include)).map
              (fun e => e ++ ['|'])).flatten
            ++ levelStr exRec ++ '\t' :: metricOf exCfg exRec ++ ['\n']]
        else []) ∧
    process_kraken_report exLine = .ok (some exRec) ∧
    ((exState.curr_path.filter (keepSpec exCfg.x_include)).map
        (fun e => e ++ ['|'])).flatten
      ++ levelStr exRec ++ '\t' :: metricOf exCfg exRec ++ ['\n'] =
      "d__Bacteria|p__Proteobacteria|s__Escherichia_coli\t100\n".data :=
  ⟨claim_c1 exCfg exState exRec exState.curr_path 1 (by decide) (by decide) (by decide),
   by decide, by decide⟩

/-- **C2**: in the ACTIVE state the backtracking loop repeatedly pops one
entry and decrements `prev_lvl_num` until `depth = prev + 1`; when no
number of pops within the stack can satisfy the exit condition, the pop
on the emptied stack raises `IndexError`, which is not caught: the step
and the whole remaining run abort with that error (no silent no-op). -/
theorem claim_c2 (cfg : Config) (s : TState) (r : KRecord)
    (hU : r.level_type ≠ uStr)
    (hA : s.prev_lvl_num ≠ -1)
    (hno : ∀ k : Nat, k ≤ s.curr_path.length →
      r.level_num ≠ s.prev_lvl_num + 1 - k) :
    (∀ (path : List (List Char)) (prev level : ℚ), level ≠ prev + 1 → path ≠ [] →
        backtrack path prev level = backtrack path.dropLast (prev - 1) level) ∧
    processRecord cfg s r = .error .indexError ∧
    ∀ rest, processRecords cfg s (r :: rest) = .error .indexError := by
  have herr : processRecord cfg s r = .error .indexError := by
    unfold processRecord
    rw [if_neg hU, if_neg hA]
    have hb : backtrack s.curr_path s.prev_lvl_num r.level_num = .error .indexError :=
      backtrackAux_error r.level_num s.curr_path.length s.curr_path s.prev_lvl_num
        (Nat.le_refl _) hno
    rw [hb]
  refine ⟨?_, herr, ?_⟩
  · intro path prev level hne hpath
    cases path with
    | nil => exact absurd rfl hpath
    | cons a l =>
      have hlen : (a :: l).dropLast.length = l.length := by
        simp [List.length_dropLast]
      calc backtrack (a :: l) prev level
          = backtrackAux level (l.length + 1) (a :: l) prev := rfl
        _ = backtrackAux level l.length (a :: l).dropLast (prev - 1) :=
            backtrackAux_step level l.length (a :: l) prev hne (by simp)
        _ = backtrack (a :: l).dropLast (prev - 1) level := by
            unfold backtrack
            rw [hlen]
  · intro rest
    rw [processRecords_cons, herr]

unseal Rat.add Rat.sub Rat.mul Rat.inv in
/-- Witness for C2: a depth-5 record over a one-entry stack at depth 0:
no pop count fits, so the step and the run abort with `IndexError`. -/
theorem claim_c2_witness :
    (∀ k : Nat, k ≤ stRoot.curr_path.length →
      recJump.level_num ≠ stRoot.prev_lvl_num + 1 - k) ∧
    processRecord exCfg stRoot recJump = .error .indexError ∧
    processRecords exCfg stRoot [recJump] = .error .indexError :=
  ⟨by decide,
   (claim_c2 exCfg stRoot recJump (by decide) (by decide) (by decide)).2.1,
   (claim_c2 exCfg stRoot recJump (by decide) (by decide) (by decide)).2.2 []⟩

/-- **C10**: a record whose depth exceeds `prev_lvl_num + 1` in the ACTIVE
state can never satisfy the loop's exit condition (`prev` only
decreases), so the loop pops the whole stack, the run fails with
`IndexError` at the empty pop, and no output is produced for the
record. -/
theorem claim_c10 (cfg : Config) (s : TState) (r : KRecord)
    (hU : r.level_type ≠ uStr)
    (hA : s.prev_lvl_num ≠ -1)
    (hgt : s.prev_lvl_num + 1 < r.level_num) :
    processRecord cfg s r = .error .indexError ∧
    ∀ (s2 : TState) (out : List (List Char)),
      processRecord cfg s r ≠ .ok (s2, out) := by
  have herr : processRecord cfg s r = .error .indexError := by
    unfold processRecord
    rw [if_neg hU, if_neg hA]
    have hno : ∀ k : Nat, k ≤ s.curr_path.length →
        r.level_num ≠ s.prev_lvl_num + 1 - k := by
      intro k _ hcon
      have hk0 : (0 : ℚ) ≤ (k : ℚ) := Nat.cast_nonneg k
      have hle : r.level_num ≤ s.prev_lvl_num + 1 := by rw [hcon]; linarith
      linarith
    have hb : backtrack s.curr_path s.prev_lvl_num r.level_num = .error .indexError :=
      backtrackAux_error r.level_num s.curr_path.length s.curr_path s.prev_lvl_num
        (Nat.le_refl _) hno
    rw [hb]
  refine ⟨herr, ?_⟩
  intro s2 out hcon
  rw [herr] at hcon
  exact Except.noConfusion hcon

unseal Rat.add Rat.sub Rat.mul Rat.inv in
/-- Witness for C10: a depth-5 record over a two-entry stack at depth 1
(an upward jump by more than one level) aborts without output. -/
theorem claim_c10_witness :
    processRecord exCfg stTwo recJump = .error .indexError ∧
    ∀ (s2 : TState) (out : List (List Char)),
      processRecord exCfg stTwo recJump ≠ .ok (s2, out) :=
  claim_c10 exCfg stTwo recJump (by decide) (by decide) (by decide)

/-- **C9** (amended): under the stack-length invariant, an ACTIVE-state
record with integral nonnegative depth at most `prev_lvl_num + 1` makes
the backtracking loop terminate with a successful pop sequence (never
popping an empty stack), and the step succeeds; in particular a depth-0
record empties the stack completely, is emitted — when the emission
condition of the source holds (display rank not `x`, or intermediate
ranks enabled) — with no ancestor segments before its own level string,
and is pushed as the new sole stack entry.  (The unconditional "is
emitted" of the original claim fails: see the counterexample.) -/
theorem claim_c9 (cfg : Config) (s : TState) (r : KRecord) (d : Nat)
    (hinv : (s.curr_path.length : ℚ) = s.prev_lvl_num + 1)
    (hA : s.prev_lvl_num ≠ -1)
    (hU : r.level_type ≠ uStr)
    (hd : r.level_num = (d : ℚ))
    (hle : r.level_num ≤ s.prev_lvl_num + 1) :
    (∃ (path : List (List Char)) (p : ℚ),
        backtrack s.curr_path s.prev_lvl_num r.level_num = .ok (path, p)) ∧
    (∃ (s2 : TState) (out : List (List Char)),
        processRecord cfg s r = .ok (s2, out)) ∧
    (r.level_num = 0 → processRecord cfg s r =
      .ok (⟨[levelStr r], 0⟩,
        if remapRank r.level_type != xStr || cfg.x_include == trueStr then
          [levelStr r ++ '\t' :: metricOf cfg r ++ ['\n']]
        else [])) := by
  have hcast : (d : ℚ) ≤ (s.curr_path.length : ℚ) := by
    rw [← hd, hinv]
    exact hle
  have hdn : d ≤ s.curr_path.length := Nat.cast_le.mp hcast
  have hlv : r.level_num =
      s.prev_lvl_num + 1 - ((s.curr_path.length - d : ℕ) : ℚ) := by
    rw [hd, Nat.cast_sub hdn, ← hinv]
    ring
  have hb := backtrackAux_ok r.level_num (s.curr_path.length - d) s.curr_path.length
    s.curr_path s.prev_lvl_num (Nat.le_refl _) (Nat.sub_le _ _) hlv
  rw [Nat.sub_sub_self hdn] at hb
  have hb' : backtrack s.curr_path s.prev_lvl_num r.level_num =
      .ok (s.curr_path.take d,
        s.prev_lvl_num - ((s.curr_path.length - d : ℕ) : ℚ)) := hb
  refine ⟨⟨_, _, hb'⟩, ⟨_, _, processRecord_active cfg s r _ _ hU hA hb'⟩, ?_⟩
  intro h0
  have hdq : (d : ℚ) = 0 := by rw [← hd]; exact h0
  have hd0 : d = 0 := by exact_mod_cast hdq
  have hstep := processRecord_active cfg s r _ _ hU hA hb'
  rw [hstep]
  subst hd0
  simp [h0]

unseal Rat.add Rat.sub Rat.mul Rat.inv in
/-- Counterexample to C9 as stated: every hypothesis of the claim holds
(invariant stack, ACTIVE, depth 0, non-`U`), yet the depth-0 record is
NOT emitted, because its display rank is `x` and intermediate ranks are
excluded: the step succeeds with an empty output list. -/
theorem claim_c9_cex :
    ((stSpec.curr_path.length : ℚ) = stSpec.prev_lvl_num + 1) ∧
    stSpec.prev_lvl_num ≠ -1 ∧
    recX0.level_type ≠ uStr ∧
    recX0.level_num = ((0 : ℕ) : ℚ) ∧
    recX0.level_num ≤ stSpec.prev_lvl_num + 1 ∧
    processRecord exCfg stSpec recX0 =
      .ok (⟨[levelStr recX0], 0⟩, ([] : List (List Char))) := by decide

unseal Rat.add Rat.sub Rat.mul Rat.inv in
/-- Witness for C9: a depth-0 phylum record over a one-entry stack at
depth 0 empties the stack, is emitted with no ancestors, and becomes the
sole entry. -/
theorem claim_c9_witness :
    (∃ (path : List (List Char)) (p : ℚ),
        backtrack stSpec.curr_path stSpec.prev_lvl_num recP0.level_num = .ok (path, p)) ∧
    (∃ (s2 : TState) (out : List (List Char)),
        processRecord exCfg stSpec recP0 = .ok (s2, out)) ∧
    (recP0.level_num = 0 → processRecord exCfg stSpec recP0 =
      .ok (⟨[levelStr recP0], 0⟩,
        if remapRank recP0.level_type != xStr || exCfg.x_include == trueStr then
          [levelStr recP0 ++ '\t' :: metricOf exCfg recP0 ++ ['\n']]
        else [])) :=
  claim_c9 exCfg stSpec recP0 0 (by decide) (by decide) (by decide) (by decide) (by decide)

/-- **C3** (amended): the parser first tries the THIRD-from-last field as
the integer taxon ID with the SECOND-from-last as the rank word
(normalized through the table); only on a ValueError-equivalent failure
does it fall back to the second-from-last as the taxon ID with the rank
taken verbatim from the third-from-last (the field further left).  A
line of either dialect — one of the two candidate fields parses as an
integer — yields a record.  (The original claim swaps the two attempts:
see the counterexample.) -/
theorem claim_c3 (fs : List (List Char)) (n : Int) (q : ℚ)
    (hlen : ¬ fs.length < 4)
    (hint : pyInt? (fld fs 1) = some n)
    (hfl : pyFloat? (fld fs 0) = some q)
    (hd : (pyInt? (negFld fs 3)).isSome ∨ (pyInt? (negFld fs 2)).isSome) :
    parseFields fs = .ok (some (mkRec fs
      (if (pyInt? (negFld fs 3)).isSome then normalizeKuniq (negFld fs 2)
       else negFld fs 3) n q)) := by
  unfold parseFields
  rw [if_neg hlen]
  simp only [hint, hfl]
  cases h3 : pyInt? (negFld fs 3) with
  | some t => simp [h3]
  | none =>
    cases h2 : pyInt? (negFld fs 2) with
    | none => simp [h3, h2] at hd
    | some t => simp [h3, h2]

unseal Rat.add Rat.sub Rat.mul Rat.inv in
/-- Counterexample to C3 as stated: on the KrakenUniq line `lineKU` the
second-from-last field (`species`) is NOT an integer, so under the
claim's order the primary attempt fails and the rank would come from a
field further left — yet the code produces rank `S`, the normalization
of the second-from-last field, which equals none of the claim's
candidates. -/
theorem claim_c3_cex :
    process_kraken_report lineKU = .ok (some recKU) ∧
    recKU.level_type = ['S'] ∧
    pyInt? (negFld (splitTab (pyStrip lineKU)) 2) = none ∧
    negFld (splitTab (pyStrip lineKU)) 3 ≠ ['S'] ∧
    normalizeKuniq (negFld (splitTab (pyStrip lineKU)) 3) ≠ ['S'] ∧
    negFld (splitTab (pyStrip lineKU)) 4 ≠ ['S'] ∧
    normalizeKuniq (negFld (splitTab (pyStrip lineKU)) 4) ≠ ['S'] := by decide

unseal Rat.add Rat.sub Rat.mul Rat.inv in
/-- Witness for C3 (amended) at the KrakenUniq line: the primary attempt
succeeds (`123` is an integer) and the rank is the normalized
second-from-last field. -/
theorem claim_c3_witness :
    parseFields (splitTab (pyStrip lineKU)) =
      .ok (some (mkRec (splitTab (pyStrip lineKU))
        (if (pyInt? (negFld (splitTab (pyStrip lineKU)) 3)).isSome then
          normalizeKuniq (negFld (splitTab (pyStrip lineKU)) 2)
         else negFld (splitTab (pyStrip lineKU)) 3) 5 1)) :=
  claim_c3 (splitTab (pyStrip lineKU)) 5 1 (by decide) (by decide) (by decide)
    (Or.inl (by decide))

/-- **C5**: every parsed record's depth is exactly half the number of
leading spaces stripped from the name field, kept as an exact rational
(no truncation), and the remaining interior spaces of the name are
replaced by underscores. -/
theorem claim_c5 (line : List Char) (r : KRecord)
    (h : process_kraken_report line = .ok (some r)) :
    r.level_num =
      (((negFld (splitTab (pyStrip line)) 1).takeWhile
          (fun c => c = ' ')).length : ℚ) / 2 ∧
    r.name = ((negFld (splitTab (pyStrip line)) 1).dropWhile
        (fun c => c = ' ')).map (fun c => if c = ' ' then '_' else c) := by
  obtain ⟨hn, hd⟩ := parseFields_shape (splitTab (pyStrip line)) r h
  simp only [parseName, nameLoop_eq, Nat.zero_add] at hn hd
  exact ⟨hd, hn⟩

unseal Rat.add Rat.sub Rat.mul Rat.inv in
/-- Witness for C5: a name field with five leading spaces yields the
fractional depth `5/2`, preserved exactly, and the interior space of
`a b` becomes an underscore. -/
theorem claim_c5_witness :
    process_kraken_report lineHalf = .ok (some recHalf) ∧
    (recHalf.level_num =
      (((negFld (splitTab (pyStrip lineHalf)) 1).takeWhile
          (fun c => c = ' ')).length : ℚ) / 2 ∧
    recHalf.name = ((negFld (splitTab (pyStrip lineHalf)) 1).dropWhile
        (fun c => c = ' ')).map (fun c => if c = ' ' then '_' else c)) :=
  ⟨by decide, claim_c5 lineHalf recHalf (by decide)⟩

/-- **C6**: a line is silently skipped (no record, processing continues)
exactly when it has fewer than 4 tab fields or a non-integer second
field; a line passing both checks whose first field is not a float makes
the parser raise an uncaught `ValueError`, aborting the run. -/
theorem claim_c6 (line : List Char) :
    (process_kraken_report line = .ok none ↔
      ((splitTab (pyStrip line)).length < 4 ∨
        pyInt? (fld (splitTab (pyStrip line)) 1) = none)) ∧
    (¬ (splitTab (pyStrip line)).length < 4 →
      pyInt? (fld (splitTab (pyStrip line)) 1) ≠ none →
      pyFloat? (fld (splitTab (pyStrip line)) 0) = none →
      process_kraken_report line = .error .valueError) := by
  constructor
  · unfold process_kraken_report parseFields
    by_cases h4 : (splitTab (pyStrip line)).length < 4
    · simp [h4]
    · rw [if_neg h4]
      cases h1 : pyInt? (fld (splitTab (pyStrip line)) 1) with
      | none => simp [h4]
      | some n =>
        cases h2 : pyFloat? (fld (splitTab (pyStrip line)) 0) with
        | none => simp [h4]
        | some q =>
          cases h3 : pyInt? (negFld (splitTab (pyStrip line)) 3) with
          | some t => simp [h4]
          | none =>
            cases h5 : pyInt? (negFld (splitTab (pyStrip line)) 2) with
            | none => simp [h4]
            | some t => simp [h4]
  · intro h4 h1 h2
    unfold process_kraken_report parseFields
    rw [if_neg h4]
    cases h1' : pyInt? (fld (splitTab (pyStrip line)) 1) with
    | none => exact absurd h1' h1
    | some n => simp [h2]

unseal Rat.add Rat.sub Rat.mul Rat.inv in
/-- Witness for C6: `abc<TAB>5<TAB>x<TAB>y` has 4 fields and an integer
second field, but its first field is not a float: the run aborts. -/
theorem claim_c6_witness :
    process_kraken_report lineBadFloat = .error .valueError :=
  (claim_c6 lineBadFloat).2 (by decide) (by decide) (by decide)

/-- **C7** (amended): in the primary (KrakenUniq) branch — third-from-last
field an integer — the rank word is normalized through the fixed table,
words outside it becoming `-`; ranks taken by the fallback branch are
used verbatim, without normalization.  The tracker renders `-` (and any
code outside the nine recognized ones) as `x`, and both `D` and `K`
render with the lowercase prefix `k`.  (The original claim's "every
parsed line is normalized via the table" fails on the fallback branch:
see the counterexample.) -/
theorem claim_c7 (fs : List (List Char)) (r : KRecord)
    (h : parseFields fs = .ok (some r))
    (hprim : (pyInt? (negFld fs 3)).isSome) :
    r.level_type = normalizeKuniq (negFld fs 2) ∧
    (normalizeKuniq "species".data = ['S'] ∧ normalizeKuniq "genus".data = ['G'] ∧
     normalizeKuniq "family".data = ['F'] ∧ normalizeKuniq "order".data = ['O'] ∧
     normalizeKuniq "class".data = ['C'] ∧ normalizeKuniq "phylum".data = ['P'] ∧
     normalizeKuniq "superkingdom".data = ['D'] ∧
     normalizeKuniq "kingdom".data = ['K']) ∧
    (∀ w, w ∉ kuniqWords → normalizeKuniq w = ['-']) ∧
    remapRank ['-'] = xStr ∧
    pyLower (remapRank ['D']) = ['k'] ∧
    pyLower (remapRank ['K']) = ['k'] ∧
    (∀ lt, lt ∉ main_lvls → remapRank lt = xStr) := by
  refine ⟨?_, by decide, ?_, by decide, by decide, by decide, ?_⟩
  · unfold parseFields at h
    by_cases h4 : fs.length < 4
    · rw [if_pos h4] at h; simp at h
    · rw [if_neg h4] at h
      cases h1 : pyInt? (fld fs 1) with
      | none => rw [h1] at h; simp at h
      | some n =>
        rw [h1] at h
        simp only [] at h
        cases h2 : pyFloat? (fld fs 0) with
        | none => rw [h2] at h; simp at h
        | some q =>
          rw [h2] at h
          simp only [] at h
          cases h3 : pyInt? (negFld fs 3) with
          | none => rw [h3] at hprim; simp at hprim
          | some t =>
            rw [h3] at h
            simp only [Except.ok.injEq, Option.some.injEq] at h
            rw [← h]
            rfl
  · intro w hw
    simp only [kuniqWords, List.mem_cons, List.not_mem_nil, or_false, not_or] at hw
    obtain ⟨w1, w2, w3, w4, w5, w6, w7, w8⟩ := hw
    simp [normalizeKuniq, w1, w2, w3, w4, w5, w6, w7, w8]
  · intro lt hlt
    unfold remapRank
    rw [if_pos hlt]

unseal Rat.add Rat.sub Rat.mul Rat.inv in
/-- Counterexample to C7 as stated: on `lineV` the rank is taken by the
fallback branch and is the table word `species` — yet it is NOT
normalized (the record keeps the verbatim word, which the tracker then
renders as `x`, not `s`). -/
theorem claim_c7_cex :
    process_kraken_report lineV = .ok (some recV) ∧
    recV.level_type = "species".data ∧
    "species".data ∈ kuniqWords ∧
    recV.level_type ≠ ['S'] ∧
    recV.level_type ≠ ['-'] ∧
    remapRank recV.level_type = xStr := by decide

unseal Rat.add Rat.sub Rat.mul Rat.inv in
/-- Witness for C7 (amended) at the KrakenUniq line `lineKU`. -/
theorem claim_c7_witness :
    recKU.level_type = normalizeKuniq (negFld (splitTab (pyStrip lineKU)) 2) ∧
    (normalizeKuniq "species".data = ['S'] ∧ normalizeKuniq "genus".data = ['G'] ∧
     normalizeKuniq "family".data = ['F'] ∧ normalizeKuniq "order".data = ['O'] ∧
     normalizeKuniq "class".data = ['C'] ∧ normalizeKuniq "phylum".data = ['P'] ∧
     normalizeKuniq "superkingdom".data = ['D'] ∧
     normalizeKuniq "kingdom".data = ['K']) ∧
    (∀ w, w ∉ kuniqWords → normalizeKuniq w = ['-']) ∧
    remapRank ['-'] = xStr ∧
    pyLower (remapRank ['D']) = ['k'] ∧
    pyLower (remapRank ['K']) = ['k'] ∧
    (∀ lt, lt ∉ main_lvls → remapRank lt = xStr) :=
  claim_c7 (splitTab (pyStrip lineKU)) recKU (by decide) (by decide)

/-- The stack-length invariant of the output loop: before the first push
the state is `([], -1)`; afterwards the stack length is exactly
`prev_lvl_num + 1`, provided every record depth is nonnegative and the
first pushed (non-`U`) record has depth 0.  A final state still at
`prev_lvl_num = -1` means no non-`U` record occurred. -/
theorem processRecords_inv (cfg : Config) :
    ∀ (rs : List KRecord) (s : TState),
      (∀ x ∈ rs, 0 ≤ x.level_num) →
      ((s.prev_lvl_num = -1 ∧ s.curr_path = []) ∨
        ((s.curr_path.length : ℚ) = s.prev_lvl_num + 1 ∧ -1 < s.prev_lvl_num)) →
      (s.prev_lvl_num = -1 →
        ∀ x, (rs.filter (fun a => a.level_type != uStr)).head? = some x →
          x.level_num = 0) →
      ∀ (sf : TState) (outf : List (List Char)),
        processRecords cfg s rs = .ok (sf, outf) →
        ((sf.prev_lvl_num = -1 ∧ sf.curr_path = []) ∨
          ((sf.curr_path.length : ℚ) = sf.prev_lvl_num + 1 ∧ -1 < sf.prev_lvl_num)) ∧
        (sf.prev_lvl_num = -1 →
          s.prev_lvl_num = -1 ∧
            rs.filter (fun a => a.level_type != uStr) = []) := by
  intro rs
  induction rs with
  | nil =>
    intro s hnn hinv hfirst sf outf h
    have h' : (Except.ok (s, ([] : List (List Char))) :
        Except PyError (TState × List (List Char))) = .ok (sf, outf) := h
    simp only [Except.ok.injEq, Prod.mk.injEq] at h'
    obtain ⟨hs, -⟩ := h'
    subst hs
    exact ⟨hinv, fun hp => ⟨hp, rfl⟩⟩
  | cons a t ih =>
    intro s hnn hinv hfirst sf outf h
    rw [processRecords_cons] at h
    cases hr : processRecord cfg s a with
    | error e => rw [hr] at h; simp at h
    | ok pr =>
      obtain ⟨s1, o1⟩ := pr
      rw [hr] at h
      simp only [] at h
      cases h2 : processRecords cfg s1 t with
      | error e => rw [h2] at h; simp at h
      | ok pr2 =>
        obtain ⟨s2, o2⟩ := pr2
        rw [h2] at h
        simp only [Except.ok.injEq, Prod.mk.injEq] at h
        obtain ⟨hsf, -⟩ := h
        subst hsf
        have hnn_t : ∀ x ∈ t, 0 ≤ x.level_num :=
          fun x hx => hnn x (List.mem_cons_of_mem a hx)
        rcases processRecord_state cfg s a s1 o1 hr with
          ⟨haU, hs1⟩ | ⟨haU, hP, hs1⟩ | ⟨haU, hP, hp1, hl1⟩
        · -- unclassified record: state unchanged, not in the filter
          rw [hs1] at h2
          have hfilter : (a :: t).filter (fun x => x.level_type != uStr) =
              t.filter (fun x => x.level_type != uStr) := by
            simp [List.filter_cons, haU]
          have hfirst' : s.prev_lvl_num = -1 →
              ∀ x, (t.filter (fun b => b.level_type != uStr)).head? = some x →
                x.level_num = 0 := by
            intro hp x hx
            exact hfirst hp x (by rw [hfilter]; exact hx)
          obtain ⟨hinv2, hempty2⟩ := ih s hnn_t hinv hfirst' s2 o2 h2
          refine ⟨hinv2, fun hp2 => ?_⟩
          obtain ⟨hp1', hfe⟩ := hempty2 hp2
          exact ⟨hp1', by rw [hfilter]; exact hfe⟩
        · -- first push
          have hpath : s.curr_path = [] := by
            rcases hinv with ⟨-, hp⟩ | ⟨-, hlt⟩
            · exact hp
            · rw [hP] at hlt; linarith
          have ha0 : a.level_num = 0 := by
            apply hfirst hP a
            simp [List.filter_cons, haU]
          have hprev1 : s1.prev_lvl_num = a.level_num := by rw [hs1]
          have hp_ne : s1.prev_lvl_num ≠ -1 := by
            rw [hprev1, ha0]
            norm_num
          have hs1inv : (s1.curr_path.length : ℚ) = s1.prev_lvl_num + 1 ∧
              -1 < s1.prev_lvl_num := by
            constructor
            · rw [hs1]
              show (((s.curr_path ++ [levelStr a]).length : ℕ) : ℚ) = a.level_num + 1
              rw [hpath, ha0]
              simp
            · rw [hprev1, ha0]
              norm_num
          obtain ⟨hinv2, hempty2⟩ := ih s1 hnn_t (Or.inr hs1inv)
            (fun hp1' => absurd hp1' hp_ne) s2 o2 h2
          refine ⟨hinv2, fun hp2 => ?_⟩
          obtain ⟨hp1', -⟩ := hempty2 hp2
          exact absurd hp1' hp_ne
        · -- ACTIVE step
          have hactive : (s.curr_path.length : ℚ) = s.prev_lvl_num + 1 := by
            rcases hinv with ⟨hpe, -⟩ | ⟨heq, -⟩
            · exact absurd hpe hP
            · exact heq
          have ha_nn : 0 ≤ a.level_num := hnn a (List.mem_cons_self a t)
          have hp_ne : s1.prev_lvl_num ≠ -1 := by
            rw [hp1]
            intro hcon
            rw [hcon] at ha_nn
            linarith
          have hs1inv : (s1.curr_path.length : ℚ) = s1.prev_lvl_num + 1 ∧
              -1 < s1.prev_lvl_num := by
            constructor
            · rw [hl1, hp1, hactive]; ring
            · rw [hp1]; linarith
          obtain ⟨hinv2, hempty2⟩ := ih s1 hnn_t (Or.inr hs1inv)
            (fun hp1' => absurd hp1' hp_ne) s2 o2 h2
          refine ⟨hinv2, fun hp2 => ?_⟩
          obtain ⟨hp1', -⟩ := hempty2 hp2
          exact absurd hp1' hp_ne

/-- **C4** (amended): for every input whose record depths are nonnegative
and whose first pushed (valid, non-`U`) record has depth 0, after the
tracker processes a pushed record the ancestor stack's length equals
that record's depth plus one.  (As originally stated — for every record
of every error-free input — the claim fails: see the counterexample.) -/
theorem claim_c4 (cfg : Config) (pre : List KRecord) (r : KRecord)
    (s : TState) (out : List (List Char))
    (hnn : ∀ x ∈ pre ++ [r], 0 ≤ x.level_num)
    (hfirst : ∀ x,
      ((pre ++ [r]).filter (fun a => a.level_type != uStr)).head? = some x →
      x.level_num = 0)
    (hU : r.level_type ≠ uStr)
    (hrun : processRecords cfg initState (pre ++ [r]) = .ok (s, out)) :
    (s.curr_path.length : ℚ) = r.level_num + 1 := by
  obtain ⟨s1, o1, o2, hpre, hlast, -⟩ :=
    processRecords_append_ok cfg pre [r] initState s out hrun
  have hfirstpre : initState.prev_lvl_num = -1 →
      ∀ x, (pre.filter (fun a => a.level_type != uStr)).head? = some x →
        x.level_num = 0 := by
    intro _ x hx
    apply hfirst x
    rw [List.filter_append]
    cases hc : pre.filter (fun a => a.level_type != uStr) with
    | nil => rw [hc] at hx; simp at hx
    | cons b l =>
      rw [hc] at hx
      simp only [List.head?_cons, Option.some.injEq] at hx
      simp [hx]
  obtain ⟨hinv1, hemp1⟩ := processRecords_inv cfg pre initState
    (fun x hx => hnn x (List.mem_append_left _ hx)) (Or.inl ⟨rfl, rfl⟩)
    hfirstpre s1 o1 hpre
  rw [processRecords_cons] at hlast
  cases hr : processRecord cfg s1 r with
  | error e => rw [hr] at hlast; simp at hlast
  | ok pr =>
    obtain ⟨s2, o2'⟩ := pr
    rw [hr] at hlast
    simp only [] at hlast
    have hlast' : (Except.ok (s2, o2' ++ ([] : List (List Char))) :
        Except PyError (TState × List (List Char))) = .ok (s, o2) := hlast
    simp only [Except.ok.injEq, Prod.mk.injEq] at hlast'
    obtain ⟨hse, -⟩ := hlast'
    subst hse
    rcases processRecord_state cfg s1 r s2 o2' hr with
      ⟨h1, -⟩ | ⟨-, hP, hs2⟩ | ⟨-, hP, hp2, hl2⟩
    · exact absurd h1 hU
    · -- r is the first pushed record, so its depth is 0
      obtain ⟨-, hfe⟩ := hemp1 hP
      have hr0 : r.level_num = 0 := by
        apply hfirst r
        rw [List.filter_append, hfe]
        simp [hU]
      have hpath1 : s1.curr_path = [] := by
        rcases hinv1 with ⟨-, hp⟩ | ⟨-, hlt⟩
        · exact hp
        · rw [hP] at hlt; linarith
      rw [hs2]
      show (((s1.curr_path ++ [levelStr r]).length : ℕ) : ℚ) = r.level_num + 1
      rw [hpath1, hr0]
      simp
    · have hact : (s1.curr_path.length : ℚ) = s1.prev_lvl_num + 1 := by
        rcases hinv1 with ⟨hpe, -⟩ | ⟨heq, -⟩
        · exact absurd hpe hP
        · exact heq
      rw [hl2, hact]
      ring

unseal Rat.add Rat.sub Rat.mul Rat.inv in
/-- Counterexample to C4 as stated: (a) after processing an unclassified
record (depth 5) the stack still has one entry, not six; (b) a run whose
first record has depth 1 leaves one entry, not two — in both runs no
backtracking error occurs. -/
theorem claim_c4_cex :
    (processRecords exCfg initState [recRoot, recU5] =
        .ok (⟨["r__root".data], 0⟩, []) ∧
      ((1 : ℕ) : ℚ) ≠ recU5.level_num + 1) ∧
    (processRecords exCfg initState [recD1] =
        .ok (⟨["s__a".data], 1⟩, []) ∧
      ((1 : ℕ) : ℚ) ≠ recD1.level_num + 1) := by decide

unseal Rat.add Rat.sub Rat.mul Rat.inv in
/-- Witness for C4 (amended): a root record at depth 0 followed by a
domain record at depth 1 leaves a stack of length 2 = depth + 1. -/
theorem claim_c4_witness :
    ((⟨["r__root".data, "k__Bacteria".data], 1⟩ : TState).curr_path.length : ℚ) =
      recBact.level_num + 1 :=
  claim_c4 exCfg [recRoot] recBact ⟨["r__root".data, "k__Bacteria".data], 1⟩
    ["k__Bacteria\t90\n".data] (by decide)
    (by
      intro x hx
      have hh : ((([recRoot] ++ [recBact]).filter
          (fun a => a.level_type != uStr)).head?) = some recRoot := by decide
      rw [hh] at hx
      injection hx with hx'
      rw [← hx']
      rfl)
    (by decide) (by decide)

/-- **C8**: the parse-and-emit pass is deterministic and opens the output
file in truncating write mode: its full output (and aborting error, if
any) is a function of the configuration and the report lines alone, so a
second run over the same input — in particular one whose pre-existing
output file is the first run's output — produces byte-identical
output. -/
theorem claim_c8 (cfg : Config) (reportLines : List (List Char)) (prevOut : List Char) :
    outputPass cfg reportLines ((outputPass cfg reportLines prevOut).1) =
      outputPass cfg reportLines prevOut ∧
    ∀ prevOut2 : List Char,
      outputPass cfg reportLines prevOut2 = outputPass cfg reportLines prevOut :=
  ⟨rfl, fun _ => rfl⟩

end Kraken2MPA
